import Mathlib

/-!
Shallow embedding of the AITRIOS data receiver (`src/main.py`).

The program is a FastAPI HTTP server with two PUT endpoints:
`/image/{path}` handled by `update_image` and `/meta/{path}` handled by
`update_inference_result`.  Both resolve the slash-delimited request path to
a location under a configured root directory (`Config.IMAGE_DIR = "./image"`,
`Config.META_DIR = "./meta"`), write the payload there, and maintain the
process-wide counters in `processing_stats`.

Modelling choices, in correspondence with the source:
* Filesystem paths are lists of path components.  `pathlib` path joining
  drops empty components and single-dot components at construction time
  (`PurePath("a", "") == PurePath("a")`, `PurePath("a", ".") == PurePath("a")`)
  and keeps `".."` components verbatim; `pathJoin` reproduces this.
  `Path("./image")` normalizes to the single component `"image"`.
* The filesystem is an association list from absolute component lists to
  file contents (a `String`; image bytes are modelled as strings).  Writing
  with mode `wb` or `w` truncates, so a write replaces the entry.
* JSON values (`json.loads` output, `json.dumps` input) are the inductive
  type `Json`.  `json.loads` itself is Python standard library, not source
  of this repository; handlers take it as an oracle `loads : String → Option Json`
  where `none` models a raised `JSONDecodeError`.  Likewise the external
  `Desilialize.DeserializeUtil.get_deserialize_data` decoder (imported, not
  in the repository) is an oracle `decode : Json → Option Json` where `none`
  models a raised exception.
* Fallibility of the filesystem write inside the two save functions
  (directory creation or `aiofiles` write raising) is modelled by a boolean
  `ioOk` argument: `true` is the non-raising run, `false` makes the write
  raise, which in the source increments the error counter and re-raises.
* Wall-clock timing is irrelevant to behaviour; the elapsed-milliseconds
  value is threaded through as a parameter `ms`.
* Logging, device-id extraction (lines 147-156 and 188, used only in log
  messages), and the GET endpoints are behaviour-free and omitted.
* FastAPI returns HTTP transport status 200 whenever a handler returns a
  plain dict, and both handlers return plain dicts on every path (the
  `except` clause returns a dict too); the `Response.transport` field
  records this transport status.
-/

/-- JSON value, the domain of `json.loads` and `json.dumps`.  Numbers are
modelled as integers; object fields keep insertion order, as Python dicts do. -/
inductive Json where
  | null : Json
  | bool (b : Bool) : Json
  | num (n : Int) : Json
  | str (s : String) : Json
  | arr (xs : List Json) : Json
  | obj (fields : List (String × Json)) : Json
deriving Repr

/-- Lookup of a key in a JSON object field list, first match (Python dict
keys are unique, so first match is the only match). Models `dict.get(k)`. -/
def objGet (fields : List (String × Json)) (k : String) : Option Json :=
  match fields with
  | [] => none
  | (k', v) :: rest => if k' = k then some v else objGet rest k

/-- Models Python dict assignment `d[k] = v`: replaces the value in place if
the key is present (keeping its position), otherwise appends the pair. -/
def objSet (fields : List (String × Json)) (k : String) (v : Json) :
    List (String × Json) :=
  match fields with
  | [] => [(k, v)]
  | (k', v') :: rest =>
      if k' = k then (k, v) :: rest else (k', v') :: objSet rest k v

/-- Python truthiness of a JSON value, as tested by `if inferences:` on
line 195: empty containers, empty strings, zero and `None`/`False` are falsy. -/
def truthy : Json → Bool
  | .null => false
  | .bool b => b
  | .num n => n ≠ 0
  | .str s => s ≠ ""
  | .arr xs => !xs.isEmpty
  | .obj fields => !fields.isEmpty

/-- Hexadecimal digit for escaping control characters. -/
def hexDigit (n : Nat) : Char :=
  if n < 10 then Char.ofNat (48 + n) else Char.ofNat (87 + n)

/-- Escape one character the way `json.dumps(..., ensure_ascii=False)` does:
quote, backslash and the named control escapes, `\u00XX` for the remaining
control characters, everything else verbatim. -/
def escapeJsonChar (c : Char) : String :=
  if c = '"' then "\\\""
  else if c = '\\' then "\\\\"
  else if c = '\n' then "\\n"
  else if c = '\t' then "\\t"
  else if c = '\r' then "\\r"
  else if c.toNat = 8 then "\\b"
  else if c.toNat = 12 then "\\f"
  else if c.toNat < 32 then
    "\\u00" ++ String.singleton (hexDigit (c.toNat / 16))
            ++ String.singleton (hexDigit (c.toNat % 16))
  else String.singleton c

/-- Escape a whole string for JSON output. -/
def escapeJson (s : String) : String :=
  String.join (s.toList.map escapeJsonChar)

mutual

/-- Models `json.dumps(content, ensure_ascii=False, indent=None)` (line 128):
compact single-line output with the default separators of `", "` and `": "`,
object fields in insertion order. -/
def dumps : Json → String
  | .null => "null"
  | .bool true => "true"
  | .bool false => "false"
  | .num n => toString n
  | .str s => "\"" ++ escapeJson s ++ "\""
  | .arr xs => "[" ++ dumpsList xs ++ "]"
  | .obj fields => "\x7b" ++ dumpsFields fields ++ "\x7d"

/-- Serialize array elements joined by the default item separator. -/
def dumpsList : List Json → String
  | [] => ""
  | [x] => dumps x
  | x :: y :: rest => dumps x ++ ", " ++ dumpsList (y :: rest)

/-- Serialize object fields joined by the default separators. -/
def dumpsFields : List (String × Json) → String
  | [] => ""
  | [(k, v)] => "\"" ++ escapeJson k ++ "\": " ++ dumps v
  | (k, v) :: f :: rest =>
      "\"" ++ escapeJson k ++ "\": " ++ dumps v ++ ", " ++ dumpsFields (f :: rest)

end

/-- The filesystem: an association list from absolute paths (component
lists) to file contents. -/
abbrev Fs := List (List String × String)

/-- Write a file, fully replacing any existing file at that path (the source
opens with truncating modes `wb` and `w`, lines 92 and 129). -/
def setFile (fs : Fs) (p : List String) (content : String) : Fs :=
  match fs with
  | [] => [(p, content)]
  | (p', c') :: rest =>
      if p' = p then (p, content) :: rest else (p', c') :: setFile rest p content

/-- Content of the file at a path, if present. -/
def lookupFile (fs : Fs) (p : List String) : Option String :=
  match fs with
  | [] => none
  | (p', c') :: rest => if p' = p then some c' else lookupFile rest p

/-- The `processing_stats` dictionary (lines 64-69): counters for images
received, metadata received and errors.  `start_time` only feeds the status
endpoint and is omitted. -/
structure Stats where
  images_received : Nat
  meta_received : Nat
  errors : Nat
deriving Repr

/-- Process state touched by the handlers: the filesystem and the counters. -/
structure State where
  fs : Fs
  stats : Stats
deriving Repr

/-- Models `pathlib` `dir / seg` for a single segment produced by
`str.split("/")` (hence containing no slash): empty and single-dot segments
are dropped by `PurePath` construction, every other segment is appended.
`".."` is kept verbatim, pure paths do not resolve it. -/
def pathJoin (dir : List String) (seg : String) : List String :=
  if seg = "" ∨ seg = "." then dir else dir ++ [seg]

/-- The segments that `pathlib` joining actually keeps: everything except
empty and single-dot segments. -/
def keptSegs (l : List String) : List String :=
  l.filter (fun s => s != "" && s != ".")

/-- Components of `Config.IMAGE_DIR = Path("./image")` (line 16); `pathlib`
normalizes the leading `"."` away. -/
def IMAGE_DIR : List String := ["image"]

/-- Components of `Config.META_DIR = Path("./meta")` (line 17). -/
def META_DIR : List String := ["meta"]

/-- Helper for `pySplit`: walk the characters, cutting at each separator;
`acc` holds the current chunk reversed. -/
def pySplitAux (sep : Char) : List Char → List Char → List (List Char)
  | [], acc => [acc.reverse]
  | c :: cs, acc =>
      if c = sep then acc.reverse :: pySplitAux sep cs []
      else pySplitAux sep cs (c :: acc)

/-- Python `s.split(sep)` for a one-character separator, at the code-point
level: always returns at least one (possibly empty) chunk, with empty chunks
for leading, trailing and doubled separators, exactly as `"a//b".split("/")`
gives `["a", "", "b"]` and `"".split("/")` gives `[""]`. -/
def pySplit (s : String) (sep : Char) : List String :=
  (pySplitAux sep s.data []).map String.mk

/-- Destination path computation of `save_image_file` (lines 75-89): split
the request path on `/`, take the last part as the filename, all earlier
parts as subdirectories under `IMAGE_DIR`, and join.  Directory creation
(`mkdir(parents=True, exist_ok=True)`) has no effect on the file map. -/
def image_dest (path : String) : List String :=
  let path_parts := pySplit path '/'
  let filename := path_parts.getLastD ""
  let subdirs := if path_parts.length > 1 then path_parts.dropLast else []
  let file_dir := subdirs.foldl pathJoin IMAGE_DIR
  pathJoin file_dir filename

/-- Python `s.endswith(suffix)`: Python strings are sequences of code
points, so this is suffix testing on the character lists. -/
def pyEndsWith (s suffix : String) : Bool :=
  List.isSuffixOf suffix.data s.data

/-- Python slice `s[:-n]` for `0 < n ≤ len(s)`: all characters except the
last `n`, again at the code-point level. -/
def pyDropLast (s : String) (n : Nat) : String :=
  String.mk (s.data.take (s.data.length - n))

/-- Filename extension normalization of `save_meta_file` (lines 120-123): a
trailing `.txt` is cut off (`filename[:-4]`) and replaced by `.json`;
otherwise, if the name does not already end in `.json`, append `.json`. -/
def normalizeMetaFilename (filename : String) : String :=
  if pyEndsWith filename ".txt" then pyDropLast filename 4 ++ ".json"
  else if ¬ pyEndsWith filename ".json" then filename ++ ".json"
  else filename

/-- Destination path computation of `save_meta_file` (lines 107-125): as for
images but under `META_DIR` and with the filename extension normalized. -/
def meta_dest (path : String) : List String :=
  let path_parts := pySplit path '/'
  let filename := path_parts.getLastD ""
  let subdirs := if path_parts.length > 1 then path_parts.dropLast else []
  let file_dir := subdirs.foldl pathJoin META_DIR
  pathJoin file_dir (normalizeMetaFilename filename)

/-- Models `save_image_file` (lines 72-100).  On the non-raising run
(`ioOk = true`) the content is written to the resolved destination,
`images_received` is incremented and the destination path is returned.  If
the filesystem operation raises (`ioOk = false`), the `except` clause
increments `errors` and re-raises, modelled by returning `none` with the
filesystem unchanged. -/
def save_image_file (ioOk : Bool) (s : State) (path : String)
    (content : String) : State × Option (List String) :=
  if ioOk then
    let file_path := image_dest path
    ({ fs := setFile s.fs file_path content,
       stats := { s.stats with images_received := s.stats.images_received + 1 } },
     some file_path)
  else
    ({ s with stats := { s.stats with errors := s.stats.errors + 1 } }, none)

/-- Models `save_meta_file` (lines 103-137).  The dict is serialized with
`json.dumps` and written to the resolved destination; `meta_received` is
incremented on success, `errors` on a raising filesystem operation. -/
def save_meta_file (ioOk : Bool) (s : State) (path : String)
    (content : Json) : State × Option (List String) :=
  if ioOk then
    let file_path := meta_dest path
    ({ fs := setFile s.fs file_path (dumps content),
       stats := { s.stats with meta_received := s.stats.meta_received + 1 } },
     some file_path)
  else
    ({ s with stats := { s.stats with errors := s.stats.errors + 1 } }, none)

/-- JSON body returned by a handler: on success
`{"status": 200, "file_path": ..., "process_time_ms": ...}` (lines 164-168
and 208-212), on any caught exception
`{"status": 500, "error": ..., "process_time_ms": ...}` (lines 173-177 and
217-221).  The `status` field is the numeric HTTP-style code placed inside
the body. -/
inductive RespBody where
  | success (status : Nat) (file_path : List String) (process_time_ms : Nat) : RespBody
  | failure (status : Nat) (error : String) (process_time_ms : Nat) : RespBody
deriving Repr

/-- Handler result: the HTTP transport status FastAPI sends (always 200 for
a handler returning a plain dict, which both handlers do on every path) and
the JSON body. -/
structure Response where
  transport : Nat
  body : RespBody
deriving Repr

/-- Models the `update_image` handler for `PUT /image/{path}` (lines
140-177).  The body bytes are saved via `save_image_file`; any exception is
caught and turned into a status-500 body, still delivered with transport
status 200. -/
def update_image (ioOk : Bool) (s : State) (path : String) (content : String)
    (ms : Nat) : State × Response :=
  match save_image_file ioOk s path content with
  | (s', some file_path) => (s', ⟨200, .success 200 file_path ms⟩)
  | (s', none) => (s', ⟨200, .failure 500 "save error" ms⟩)

/-- Inference-processing and save steps of the `update_inference_result`
handler for `PUT /meta/{path}` (lines 190-221), factored out over the value
`inferences = contentj.get("Inferences", [])`.  As in the source: if
`inferences` is truthy, take element 0, read its field `"O"` with default
`""`, decode it and set `DeserializedData` on the record, then save via
`save_meta_file`; otherwise save the record unchanged.  A decoder failure
raises before `save_meta_file` is reached, so it is caught by the handler
with no file written and no counter change; type and attribute errors from
a truthy non-list `Inferences` value or from a non-dict first element (in
Python, indexing or `.get` raising) are caught the same way.  A truthy
string would first yield its one-character first element and then raise on
`.get`; the net observable effect, a caught exception with state unchanged,
is what the `failure` arms model. -/
def processInferences (decode : Json → Option Json) (ioOk : Bool) (s : State)
    (path : String) (ms : Nat) (fields : List (String × Json))
    (inferences : Json) : State × Response :=
  if truthy inferences then
    match inferences with
    | .arr (elem0 :: _) =>
        match elem0 with
        | .obj efields =>
            match decode ((objGet efields "O").getD (.str "")) with
            | none => (s, ⟨200, .failure 500 "deserialize error" ms⟩)
            | some deserialize_data =>
                match save_meta_file ioOk s path
                    (Json.obj (objSet fields "DeserializedData" deserialize_data)) with
                | (s', some file_path) => (s', ⟨200, .success 200 file_path ms⟩)
                | (s', none) => (s', ⟨200, .failure 500 "save error" ms⟩)
        | _ => (s, ⟨200, .failure 500 "attribute error" ms⟩)
    | _ => (s, ⟨200, .failure 500 "type error" ms⟩)
  else
    match save_meta_file ioOk s path (.obj fields) with
    | (s', some file_path) => (s', ⟨200, .success 200 file_path ms⟩)
    | (s', none) => (s', ⟨200, .failure 500 "save error" ms⟩)

/-- The whole metadata handler: parse, process inferences, save. -/
def update_inference_result (loads : String → Option Json)
    (decode : Json → Option Json) (ioOk : Bool) (s : State) (path : String)
    (body : String) (ms : Nat) : State × Response :=
  match loads body with
  | none => (s, ⟨200, .failure 500 "json decode error" ms⟩)
  | some (.obj fields) =>
      processInferences decode ioOk s path ms fields
        ((objGet fields "Inferences").getD (.arr []))
  | some _ => (s, ⟨200, .failure 500 "attribute error" ms⟩)

/-- One step of operating-system path resolution relative to the working
directory: a `".."` component removes the last real component of the
accumulated path, or is recorded as a leading parent step when the
accumulated path is already at or above the working directory; `"."` and
empty components are no-ops; any other component descends. -/
def canonStep (acc : List String) (seg : String) : List String :=
  if seg = ".." then
    if acc = [] ∨ acc.getLast? = some ".." then acc ++ [".."]
    else acc.dropLast
  else if seg = "." ∨ seg = "" then acc
  else acc ++ [seg]

/-- Canonical (resolved) form of a path relative to the working directory:
the location the operating system actually resolves the written path to,
with `"."` and empty components eliminated and `".."` components resolved,
escapes above the working directory remaining as leading `".."`
components. -/
def canonicalize (p : List String) : List String :=
  p.foldl canonStep []

/-- The path, once resolved by the operating system, lies under the given
root directory. -/
def underRoot (root p : List String) : Bool :=
  root.isPrefixOf (canonicalize p)

/-- Empty state used as a concrete starting point: empty filesystem, all
counters zero. -/
def s0 : State := { fs := [], stats := { images_received := 0, meta_received := 0, errors := 0 } }

/-!  Helper lemmas. -/

/-- Joining segments that are neither empty nor `"."` is plain appending. -/
theorem foldl_pathJoin_clean (l : List String) (hl : ∀ x ∈ l, x ≠ "" ∧ x ≠ ".") :
    ∀ acc, l.foldl pathJoin acc = acc ++ l := by
  induction l with
  | nil => simp
  | cons a t ih =>
      intro acc
      have ha := hl a (by simp)
      have ht : ∀ x ∈ t, x ≠ "" ∧ x ≠ "." := fun x hx => hl x (by simp [hx])
      rw [List.foldl_cons, pathJoin, if_neg (by simp [ha.1, ha.2]), ih ht]
      simp

/-- Canonicalization of a path whose components contain no traversal or
no-op segments is the identity. -/
theorem foldl_canonStep_clean (l : List String)
    (hl : ∀ x ∈ l, x ≠ "" ∧ x ≠ "." ∧ x ≠ "..") :
    ∀ acc, l.foldl canonStep acc = acc ++ l := by
  induction l with
  | nil => simp
  | cons a t ih =>
      intro acc
      have ha := hl a (by simp)
      have ht : ∀ x ∈ t, x ≠ "" ∧ x ≠ "." ∧ x ≠ ".." := fun x hx => hl x (by simp [hx])
      rw [List.foldl_cons, canonStep, if_neg ha.2.2, if_neg (by simp [ha.1, ha.2.1]), ih ht]
      simp

/-- A freshly written file is found with exactly the written content. -/
theorem lookupFile_setFile (fs : Fs) (p : List String) (content : String) :
    lookupFile (setFile fs p content) p = some content := by
  induction fs with
  | nil => simp [setFile, lookupFile]
  | cons kv rest ih =>
      by_cases h : kv.1 = p
      · simp [setFile, lookupFile, h]
      · simp [setFile, lookupFile, h, ih]

/-- Characterization of `pyEndsWith` through list suffixes. -/
theorem pyEndsWith_iff (s suffix : String) :
    pyEndsWith s suffix = true ↔ suffix.data <:+ s.data := by
  simp [pyEndsWith, List.isSuffixOf_iff_suffix]

/-- Appending a suffix makes `pyEndsWith` with that suffix true. -/
theorem pyEndsWith_append (a b : String) : pyEndsWith (a ++ b) b = true := by
  rw [pyEndsWith_iff]
  simp

/-- A string ending in `".json"` does not end in `".txt"`. -/
theorem pyEndsWith_json_not_txt (s : String) (h : pyEndsWith s ".json" = true) :
    pyEndsWith s ".txt" = false := by
  rw [pyEndsWith_iff] at h
  by_contra hb
  rw [Bool.not_eq_false, pyEndsWith_iff] at hb
  rcases List.suffix_or_suffix_of_suffix h hb with h2 | h2
  · exact absurd h2 (by decide)
  · exact absurd h2 (by decide)

/-- A string ending in `".json"` is normalized to itself. -/
theorem normalizeMetaFilename_of_json (f : String) (h : pyEndsWith f ".json" = true) :
    normalizeMetaFilename f = f := by
  rw [normalizeMetaFilename, if_neg (by simp [pyEndsWith_json_not_txt f h]),
    if_neg (by simp [h])]

/-- Every normalized filename ends in `".json"`. -/
theorem normalizeMetaFilename_endsWith_json (f : String) :
    pyEndsWith (normalizeMetaFilename f) ".json" = true := by
  rw [normalizeMetaFilename]
  by_cases h1 : pyEndsWith f ".txt" = true
  · rw [if_pos (by simp [h1])]
    exact pyEndsWith_append _ _
  · rw [if_neg (by simp [h1])]
    by_cases h2 : pyEndsWith f ".json" = true
    · rw [if_neg (by simp [h2])]
      exact h2
    · rw [if_pos (by simp [h2])]
      exact pyEndsWith_append _ _

/-- A normalized filename is never a no-op or traversal path component. -/
theorem normalizeMetaFilename_clean (f : String) :
    normalizeMetaFilename f ≠ "" ∧ normalizeMetaFilename f ≠ "." ∧
      normalizeMetaFilename f ≠ ".." := by
  have h := (pyEndsWith_iff _ _).1 (normalizeMetaFilename_endsWith_json f)
  have hlen : 5 ≤ (normalizeMetaFilename f).data.length := h.length_le
  refine ⟨?_, ?_, ?_⟩ <;> intro heq <;> rw [heq] at hlen <;> simp at hlen
/-- With all segments non-empty and non-dot, the image destination is the
image root followed by every raw segment. -/
theorem image_dest_eq (path : String) (L : List String) (b : String)
    (hp : pySplit path '/' = L ++ [b])
    (h : ∀ seg ∈ L ++ [b], seg ≠ "" ∧ seg ≠ ".") :
    image_dest path = IMAGE_DIR ++ (L ++ [b]) := by
  have hL : ∀ seg ∈ L, seg ≠ "" ∧ seg ≠ "." := fun x hx => h x (by simp [hx])
  have hb : b ≠ "" ∧ b ≠ "." := h b (by simp)
  have hsub : (if (L ++ [b]).length > 1 then (L ++ [b]).dropLast else []) = L := by
    rcases L with _ | ⟨a, t⟩
    · simp
    · rw [if_pos (by simp)]
      exact List.dropLast_concat
  rw [image_dest, hp, hsub, List.getLastD_concat, foldl_pathJoin_clean L hL,
    pathJoin, if_neg (by simp [hb.1, hb.2])]
  simp

/-- With all segments non-empty and non-dot, the metadata destination is the
meta root, the directory segments, and the normalized filename. -/
theorem meta_dest_eq (path : String) (L : List String) (b : String)
    (hp : pySplit path '/' = L ++ [b])
    (h : ∀ seg ∈ L ++ [b], seg ≠ "" ∧ seg ≠ ".") :
    meta_dest path = META_DIR ++ L ++ [normalizeMetaFilename b] := by
  have hL : ∀ seg ∈ L, seg ≠ "" ∧ seg ≠ "." := fun x hx => h x (by simp [hx])
  have hnb := normalizeMetaFilename_clean b
  have hsub : (if (L ++ [b]).length > 1 then (L ++ [b]).dropLast else []) = L := by
    rcases L with _ | ⟨a, t⟩
    · simp
    · rw [if_pos (by simp)]
      exact List.dropLast_concat
  rw [meta_dest, hp, hsub, List.getLastD_concat, foldl_pathJoin_clean L hL,
    pathJoin, if_neg (by simp [hnb.1, hnb.2.1])]

/-- The success path of `update_image` writes the body to the resolved
destination and reports that destination in the response body. -/
theorem update_image_ok (s : State) (path content : String) (ms : Nat) :
    lookupFile (update_image true s path content ms).1.fs (image_dest path)
        = some content ∧
    (update_image true s path content ms).2.body
        = .success 200 (image_dest path) ms := by
  rw [update_image, save_image_file, if_pos rfl]
  exact ⟨lookupFile_setFile _ _ _, rfl⟩

/-- C1: for a valid `rawPath` (no empty and no `"."` segments) with at least
two slash-separated segments, `update_image` writes the request body exactly
and unmodified to the image root followed by all segments but the last as
directories and the last segment verbatim as filename, and returns that
path; for exactly one segment the destination is the root plus the filename
with no subdirectory. -/
theorem handleImage_write_and_path (s : State) (path content : String) (ms : Nat)
    (hvalid : ∀ seg ∈ pySplit path '/', seg ≠ "" ∧ seg ≠ ".") :
    (2 ≤ (pySplit path '/').length →
      image_dest path =
        (IMAGE_DIR ++ (pySplit path '/').dropLast) ++ [(pySplit path '/').getLastD ""] ∧
      lookupFile (update_image true s path content ms).1.fs (image_dest path)
        = some content ∧
      (update_image true s path content ms).2.body
        = .success 200 (image_dest path) ms) ∧
    ((pySplit path '/').length = 1 →
      image_dest path = IMAGE_DIR ++ [(pySplit path '/').getLastD ""] ∧
      lookupFile (update_image true s path content ms).1.fs (image_dest path)
        = some content ∧
      (update_image true s path content ms).2.body
        = .success 200 (image_dest path) ms) := by
  rcases (pySplit path '/').eq_nil_or_concat with hnil | ⟨L, b, hcat⟩
  · constructor
    · intro hlen
      rw [hnil] at hlen
      simp at hlen
    · intro hlen
      rw [hnil] at hlen
      simp at hlen
  · rw [List.concat_eq_append] at hcat
    have h' : ∀ seg ∈ L ++ [b], seg ≠ "" ∧ seg ≠ "." := by
      rw [← hcat]
      exact hvalid
    have hdest := image_dest_eq path L b hcat h'
    constructor
    · intro _
      refine ⟨?_, update_image_ok s path content ms⟩
      rw [hdest, hcat, List.getLastD_concat, List.dropLast_concat]
      simp
    · intro hlen
      have hLnil : L = [] := by
        rw [hcat] at hlen
        rcases L with _ | ⟨a, t⟩
        · rfl
        · simp at hlen
      refine ⟨?_, update_image_ok s path content ms⟩
      rw [hdest, hcat, List.getLastD_concat, hLnil]
      simp

/-- C1 witness: a concrete two-directory upload lands at the expected
destination with the exact body, and a single-segment upload lands directly
under the image root. -/
theorem handleImage_write_and_path_witness :
    (image_dest "dev1/2024/frame001.jpg" =
        (IMAGE_DIR ++ ["dev1", "2024"]) ++ ["frame001.jpg"] ∧
      lookupFile (update_image true s0 "dev1/2024/frame001.jpg" "PNGBYTES" 3).1.fs
          (image_dest "dev1/2024/frame001.jpg") = some "PNGBYTES" ∧
      (update_image true s0 "dev1/2024/frame001.jpg" "PNGBYTES" 3).2.body
          = .success 200 (image_dest "dev1/2024/frame001.jpg") 3) ∧
    (image_dest "frame001.jpg" = IMAGE_DIR ++ ["frame001.jpg"] ∧
      lookupFile (update_image true s0 "frame001.jpg" "PNGBYTES" 3).1.fs
          (image_dest "frame001.jpg") = some "PNGBYTES" ∧
      (update_image true s0 "frame001.jpg" "PNGBYTES" 3).2.body
          = .success 200 (image_dest "frame001.jpg") 3) := by
  constructor
  · have h := (handleImage_write_and_path s0 "dev1/2024/frame001.jpg" "PNGBYTES" 3
      (by decide)).1 (by decide)
    have e1 : (pySplit "dev1/2024/frame001.jpg" '/').dropLast = ["dev1", "2024"] := by
      decide
    have e2 : (pySplit "dev1/2024/frame001.jpg" '/').getLastD "" = "frame001.jpg" := by
      decide
    rw [e1, e2] at h
    exact h
  · have h := (handleImage_write_and_path s0 "frame001.jpg" "PNGBYTES" 3
      (by decide)).2 (by decide)
    have e2 : (pySplit "frame001.jpg" '/').getLastD "" = "frame001.jpg" := by decide
    rw [e2] at h
    exact h
/-- A root followed by clean components canonicalizes to itself, so it lies
under the root. -/
theorem underRoot_append (root l : List String)
    (hroot : ∀ x ∈ root, x ≠ "" ∧ x ≠ "." ∧ x ≠ "..")
    (hl : ∀ x ∈ l, x ≠ "" ∧ x ≠ "." ∧ x ≠ "..") :
    underRoot root (root ++ l) = true := by
  rw [underRoot, canonicalize, List.foldl_append,
    foldl_canonStep_clean root (fun x hx => ⟨(hroot x hx).1, (hroot x hx).2.1, (hroot x hx).2.2⟩),
    foldl_canonStep_clean l hl]
  simp [List.isPrefixOf_iff_prefix]

/-- Joining arbitrary segments appends exactly the kept (non-empty,
non-dot) ones. -/
theorem foldl_pathJoin_kept (l : List String) :
    ∀ acc, l.foldl pathJoin acc = acc ++ keptSegs l := by
  induction l with
  | nil => simp [keptSegs]
  | cons a t ih =>
      intro acc
      by_cases h : a = "" ∨ a = "."
      · rw [List.foldl_cons, pathJoin, if_pos h, ih]
        have e : keptSegs (a :: t) = keptSegs t := by
          rcases h with h | h <;> simp [keptSegs, h]
        rw [e]
      · rw [List.foldl_cons, pathJoin, if_neg h, ih]
        push_neg at h
        have e : keptSegs (a :: t) = a :: keptSegs t := by
          simp [keptSegs, List.filter_cons, h.1, h.2]
        rw [e]
        simp

/-- Joining a single segment appends its kept form. -/
theorem pathJoin_eq_kept (dir : List String) (f : String) :
    pathJoin dir f = dir ++ keptSegs [f] := by
  by_cases h : f = "" ∨ f = "."
  · rw [pathJoin, if_pos h]
    rcases h with h | h <;> simp [keptSegs, h]
  · rw [pathJoin, if_neg h]
    push_neg at h
    simp [keptSegs, h.1, h.2]

/-- A kept segment comes from the original list and is neither empty nor a
dot. -/
theorem mem_keptSegs (l : List String) (x : String) (hx : x ∈ keptSegs l) :
    x ∈ l ∧ x ≠ "" ∧ x ≠ "." := by
  obtain ⟨hm, hp⟩ := List.mem_filter.1 hx
  simp at hp
  exact ⟨hm, hp.1, hp.2⟩

/-- For any split of the raw path, the image destination is the image root
followed by the kept segments. -/
theorem image_dest_kept (path : String) (L : List String) (b : String)
    (hp : pySplit path '/' = L ++ [b]) :
    image_dest path = IMAGE_DIR ++ keptSegs (L ++ [b]) := by
  have hsub : (if (L ++ [b]).length > 1 then (L ++ [b]).dropLast else []) = L := by
    rcases L with _ | ⟨a, t⟩
    · simp
    · rw [if_pos (by simp)]
      exact List.dropLast_concat
  rw [image_dest, hp, hsub, List.getLastD_concat, foldl_pathJoin_kept L IMAGE_DIR,
    pathJoin_eq_kept]
  simp [keptSegs, List.filter_append]

/-- For any split of the raw path, the metadata destination is the meta root
followed by the kept directory segments and the normalized filename (which
is always kept, as it ends in `".json"`). -/
theorem meta_dest_kept (path : String) (L : List String) (b : String)
    (hp : pySplit path '/' = L ++ [b]) :
    meta_dest path = META_DIR ++ keptSegs L ++ [normalizeMetaFilename b] := by
  have hnb := normalizeMetaFilename_clean b
  have hsub : (if (L ++ [b]).length > 1 then (L ++ [b]).dropLast else []) = L := by
    rcases L with _ | ⟨a, t⟩
    · simp
    · rw [if_pos (by simp)]
      exact List.dropLast_concat
  rw [meta_dest, hp, hsub, List.getLastD_concat, foldl_pathJoin_kept L META_DIR,
    pathJoin, if_neg (by simp [hnb.1, hnb.2.1])]

/-- C3 counterexample: for the raw path `"../../etc/passwd"` the image
handler writes to `image/../../etc/passwd`, which the operating system
resolves to `../etc/passwd` relative to the working directory, a location
outside the configured image root; likewise `"../../image/x"` resolves to
`../image/x`, outside the root even though its canonical form revisits a
directory named `image`. -/
theorem path_traversal_escapes_root :
    (save_image_file true s0 "../../etc/passwd" "x").2
        = some (image_dest "../../etc/passwd") ∧
    image_dest "../../etc/passwd" = ["image", "..", "..", "etc", "passwd"] ∧
    canonicalize (image_dest "../../etc/passwd") = ["..", "etc", "passwd"] ∧
    underRoot IMAGE_DIR (image_dest "../../etc/passwd") = false ∧
    canonicalize (image_dest "../../image/x") = ["..", "image", "x"] ∧
    underRoot IMAGE_DIR (image_dest "../../image/x") = false :=
  ⟨by decide, by decide, by decide, by decide, by decide, by decide⟩

/-- C3 (amended): the resolved destination lies under the configured image
or metadata root for every raw path with no `".."` segment (empty and `"."`
segments are harmless, since `pathlib` joining drops them); a `".."` segment
can escape the root (see the counterexample). -/
theorem dest_under_root_of_no_dotdot (path : String)
    (h : ∀ seg ∈ pySplit path '/', seg ≠ "..") :
    underRoot IMAGE_DIR (image_dest path) = true ∧
    underRoot META_DIR (meta_dest path) = true := by
  rcases (pySplit path '/').eq_nil_or_concat with hnil | ⟨L, b, hcat⟩
  · constructor
    · have e : image_dest path = IMAGE_DIR := by
        unfold image_dest
        rw [hnil]
        decide
      rw [e]
      decide
    · have e : meta_dest path = ["meta", ".json"] := by
        unfold meta_dest
        rw [hnil]
        decide
      rw [e]
      decide
  · rw [List.concat_eq_append] at hcat
    have hmem : ∀ x ∈ keptSegs (L ++ [b]), x ≠ "" ∧ x ≠ "." ∧ x ≠ ".." := by
      intro x hx
      obtain ⟨hm, h1, h2⟩ := mem_keptSegs _ x hx
      refine ⟨h1, h2, ?_⟩
      apply h
      rw [hcat]
      exact hm
    constructor
    · rw [image_dest_kept path L b hcat]
      exact underRoot_append IMAGE_DIR _ (by decide) hmem
    · rw [meta_dest_kept path L b hcat, List.append_assoc]
      refine underRoot_append META_DIR _ (by decide) ?_
      intro x hx
      rcases List.mem_append.1 hx with hx | hx
      · obtain ⟨hm, h1, h2⟩ := mem_keptSegs L x hx
        refine ⟨h1, h2, ?_⟩
        apply h
        rw [hcat]
        exact List.mem_append.2 (Or.inl hm)
      · have hc := normalizeMetaFilename_clean b
        simp at hx
        rw [hx]
        exact ⟨hc.1, hc.2.1, hc.2.2⟩

/-- C3 amended-claim witness: a path with doubled slashes and a `"."`
segment but no `".."` still resolves under both roots. -/
theorem dest_under_root_of_no_dotdot_witness :
    underRoot IMAGE_DIR (image_dest "dev1//2024/./frame001.jpg") = true ∧
    underRoot META_DIR (meta_dest "dev1//2024/./frame001.jpg") = true :=
  dest_under_root_of_no_dotdot "dev1//2024/./frame001.jpg" (by decide)

/-- C7: metadata filename normalization as performed by `save_meta_file`: a
name ending in `".txt"` has that suffix cut off and replaced with `".json"`;
a name ending in neither `".txt"` nor `".json"` gets `".json"` appended; a
name already ending in `".json"` is left unchanged. -/
theorem meta_filename_normalization_cases (f : String) :
    (pyEndsWith f ".txt" = true →
      normalizeMetaFilename f = pyDropLast f 4 ++ ".json") ∧
    (pyEndsWith f ".txt" = false → pyEndsWith f ".json" = false →
      normalizeMetaFilename f = f ++ ".json") ∧
    (pyEndsWith f ".json" = true → normalizeMetaFilename f = f) := by
  refine ⟨?_, ?_, ?_⟩
  · intro h
    rw [normalizeMetaFilename, if_pos h]
  · intro h1 h2
    rw [normalizeMetaFilename, if_neg (by simp [h1]), if_pos (by simp [h2])]
  · exact normalizeMetaFilename_of_json f

/-- C7 witness: the three normalization cases at concrete filenames. -/
theorem meta_filename_normalization_cases_witness :
    normalizeMetaFilename "result.txt" = pyDropLast "result.txt" 4 ++ ".json" ∧
    normalizeMetaFilename "result" = "result" ++ ".json" ∧
    normalizeMetaFilename "result.json" = "result.json" :=
  ⟨(meta_filename_normalization_cases "result.txt").1 (by decide),
   (meta_filename_normalization_cases "result").2.1 (by decide) (by decide),
   (meta_filename_normalization_cases "result.json").2.2 (by decide)⟩

/-- C8: metadata filename normalization is idempotent, a name ending in
`".json"` normalizes to itself, and a name ending in `".txt"` always maps to
the same name with `".json"` substituted for the `".txt"` suffix. -/
theorem meta_filename_normalization_idem (f : String) :
    normalizeMetaFilename (normalizeMetaFilename f) = normalizeMetaFilename f ∧
    (pyEndsWith f ".json" = true → normalizeMetaFilename f = f) ∧
    (pyEndsWith f ".txt" = true →
      normalizeMetaFilename f = pyDropLast f 4 ++ ".json") := by
  refine ⟨?_, normalizeMetaFilename_of_json f, ?_⟩
  · exact normalizeMetaFilename_of_json _ (normalizeMetaFilename_endsWith_json f)
  · intro h
    rw [normalizeMetaFilename, if_pos h]

/-- C8 witness: idempotence and the two special cases at concrete
filenames. -/
theorem meta_filename_normalization_idem_witness :
    normalizeMetaFilename (normalizeMetaFilename "result.txt")
        = normalizeMetaFilename "result.txt" ∧
    normalizeMetaFilename "result.json" = "result.json" ∧
    normalizeMetaFilename "result.txt" = pyDropLast "result.txt" 4 ++ ".json" :=
  ⟨(meta_filename_normalization_idem "result.txt").1,
   (meta_filename_normalization_idem "result.json").2.1 (by decide),
   (meta_filename_normalization_idem "result.txt").2.2 (by decide)⟩

/-- C9: two successful sequential image writes to the same raw path
overwrite rather than append: after writing payload A and then payload B,
the file at the resolved destination contains exactly B. -/
theorem image_overwrite_semantics (s : State) (path A B : String) :
    lookupFile (save_image_file true (save_image_file true s path A).1 path B).1.fs
        (image_dest path) = some B := by
  simp [save_image_file, lookupFile_setFile]

/-- C10: a successful image save increments exactly `images_received` and a
successful metadata save increments exactly `meta_received`, each leaving
the other two counters unchanged. -/
theorem save_success_counter_frame (s : State) (path content : String) (j : Json) :
    ((save_image_file true s path content).1.stats.images_received
        = s.stats.images_received + 1 ∧
      (save_image_file true s path content).1.stats.meta_received
        = s.stats.meta_received ∧
      (save_image_file true s path content).1.stats.errors = s.stats.errors) ∧
    ((save_meta_file true s path j).1.stats.meta_received
        = s.stats.meta_received + 1 ∧
      (save_meta_file true s path j).1.stats.images_received
        = s.stats.images_received ∧
      (save_meta_file true s path j).1.stats.errors = s.stats.errors) := by
  simp [save_image_file, save_meta_file]

/-- Oracle for `json.loads` on a body that is not valid JSON: the parse
raises. -/
def loadsNone : String → Option Json := fun _ => none

/-- Oracle for `json.loads` on a body carrying one inference with an `O`
payload. -/
def loadsInf : String → Option Json :=
  fun _ => some (Json.obj [("DeviceID", Json.str "dev1"),
    ("Inferences", Json.arr [Json.obj [("O", Json.str "encoded")]])])

/-- Oracle for `json.loads` on a body with no `Inferences` field. -/
def loadsNoInf : String → Option Json :=
  fun _ => some (Json.obj [("DeviceID", Json.str "dev1")])

/-- Decoder oracle that always raises. -/
def decodeFail : Json → Option Json := fun _ => none

/-- Decoder oracle that always succeeds with a fixed value. -/
def decodeSome : Json → Option Json := fun _ => some (Json.num 1)

/-- C4 (amended): when the metadata body is not valid JSON, the handler
reports an operation failure in the response body, writes no file, and
leaves every counter unchanged: the exception is raised before
`save_meta_file` runs, and the error counter is incremented only inside
the save functions. -/
theorem metadata_bad_json_no_write (loads : String → Option Json)
    (decode : Json → Option Json) (ioOk : Bool) (s : State)
    (path body : String) (ms : Nat) (h : loads body = none) :
    update_inference_result loads decode ioOk s path body ms
      = (s, ⟨200, .failure 500 "json decode error" ms⟩) := by
  unfold update_inference_result
  rw [h]

/-- C4 witness: a concrete invalid-JSON request leaves the state untouched
and yields the failure body. -/
theorem metadata_bad_json_no_write_witness :
    update_inference_result loadsNone decodeFail true s0 "dev1/result.txt" "notjson" 4
      = (s0, ⟨200, .failure 500 "json decode error" 4⟩) :=
  metadata_bad_json_no_write loadsNone decodeFail true s0 "dev1/result.txt" "notjson" 4 rfl

/-- C4 counterexample to the claimed counter increment: on a request whose
body is not valid JSON the error counter stays at its old value instead of
increasing by one. -/
theorem metadata_bad_json_counter_unchanged :
    ¬ ((update_inference_result loadsNone decodeFail true s0
          "dev1/result.txt" "notjson" 4).1.stats.errors
        = s0.stats.errors + 1) := by
  decide

/-- C2 (amended): when `Inferences` is non-empty and decoding the first
element's `O` field raises, the handler writes no metadata file, leaves the
state (filesystem and every counter, in particular the error counter)
unchanged, and reports an operation failure: the decoder raises before
`save_meta_file` runs, and the error counter is incremented only inside the
save functions. -/
theorem metadata_decode_failure_no_write (loads : String → Option Json)
    (decode : Json → Option Json) (ioOk : Bool) (s : State)
    (path body : String) (ms : Nat) (fields efields : List (String × Json))
    (rest : List Json)
    (hload : loads body = some (.obj fields))
    (hinf : objGet fields "Inferences" = some (.arr (Json.obj efields :: rest)))
    (hdec : decode ((objGet efields "O").getD (.str "")) = none) :
    update_inference_result loads decode ioOk s path body ms
      = (s, ⟨200, .failure 500 "deserialize error" ms⟩) := by
  unfold update_inference_result
  rw [hload]
  simp [processInferences, hinf, truthy, hdec]

/-- C2 witness: a concrete request with one undecodable inference leaves
the state untouched and yields the failure body. -/
theorem metadata_decode_failure_no_write_witness :
    update_inference_result loadsInf decodeFail true s0 "dev1/result.txt" "body" 7
      = (s0, ⟨200, .failure 500 "deserialize error" 7⟩) :=
  metadata_decode_failure_no_write loadsInf decodeFail true s0 "dev1/result.txt" "body" 7
    [("DeviceID", Json.str "dev1"),
     ("Inferences", Json.arr [Json.obj [("O", Json.str "encoded")]])]
    [("O", Json.str "encoded")] [] rfl rfl rfl

/-- C2 counterexample to the claimed counter increment: on a decode failure
the error counter stays at its old value instead of increasing by one. -/
theorem metadata_decode_failure_counter_unchanged :
    ¬ ((update_inference_result loadsInf decodeFail true s0
          "dev1/result.txt" "body" 7).1.stats.errors
        = s0.stats.errors + 1) := by
  decide

/-- When the parsed record's `Inferences` value is falsy (in particular an
empty list or an absent key), the handler skips decoding and persists the
parsed record itself, serialized by `json.dumps`. -/
theorem update_inference_result_no_inf (loads : String → Option Json)
    (decode : Json → Option Json) (s : State) (path body : String)
    (ms : Nat) (fields : List (String × Json))
    (hload : loads body = some (.obj fields))
    (htr : truthy ((objGet fields "Inferences").getD (.arr [])) = false) :
    update_inference_result loads decode true s path body ms
      = ({ fs := setFile s.fs (meta_dest path) (dumps (.obj fields)),
           stats := { s.stats with meta_received := s.stats.meta_received + 1 } },
         ⟨200, .success 200 (meta_dest path) ms⟩) := by
  unfold update_inference_result
  rw [hload]
  simp [processInferences, htr, save_meta_file]

/-- C6: when the record's `Inferences` list is empty or the key is absent,
the handler attempts no decoding (its result does not depend on the decoder
at all) and the persisted record is the parsed input JSON re-serialized,
with no `DeserializedData` field added. -/
theorem metadata_no_inferences_passthrough (loads : String → Option Json)
    (decode decode' : Json → Option Json) (s : State) (path body : String)
    (ms : Nat) (fields : List (String × Json))
    (hload : loads body = some (.obj fields))
    (hinf : objGet fields "Inferences" = none ∨
      objGet fields "Inferences" = some (.arr [])) :
    update_inference_result loads decode true s path body ms
      = ({ fs := setFile s.fs (meta_dest path) (dumps (.obj fields)),
           stats := { s.stats with meta_received := s.stats.meta_received + 1 } },
         ⟨200, .success 200 (meta_dest path) ms⟩) ∧
    lookupFile (update_inference_result loads decode true s path body ms).1.fs
        (meta_dest path) = some (dumps (.obj fields)) ∧
    update_inference_result loads decode true s path body ms
      = update_inference_result loads decode' true s path body ms := by
  have htr : truthy ((objGet fields "Inferences").getD (.arr [])) = false := by
    rcases hinf with h | h <;> simp [h, truthy]
  have h1 := update_inference_result_no_inf loads decode s path body ms fields hload htr
  have h2 := update_inference_result_no_inf loads decode' s path body ms fields hload htr
  refine ⟨h1, ?_, by rw [h1, h2]⟩
  rw [h1]
  exact lookupFile_setFile _ _ _

/-- C6 witness: a concrete record without `Inferences` is persisted exactly
as parsed, and an always-failing and an always-succeeding decoder give the
same result. -/
theorem metadata_no_inferences_passthrough_witness :
    update_inference_result loadsNoInf decodeFail true s0 "dev1/result.txt" "b" 2
      = ({ fs := setFile s0.fs (meta_dest "dev1/result.txt")
              (dumps (.obj [("DeviceID", Json.str "dev1")])),
           stats := { s0.stats with meta_received := s0.stats.meta_received + 1 } },
         ⟨200, .success 200 (meta_dest "dev1/result.txt") 2⟩) ∧
    lookupFile (update_inference_result loadsNoInf decodeFail true s0
          "dev1/result.txt" "b" 2).1.fs (meta_dest "dev1/result.txt")
        = some (dumps (.obj [("DeviceID", Json.str "dev1")])) ∧
    update_inference_result loadsNoInf decodeFail true s0 "dev1/result.txt" "b" 2
      = update_inference_result loadsNoInf decodeSome true s0 "dev1/result.txt" "b" 2 :=
  metadata_no_inferences_passthrough loadsNoInf decodeFail decodeSome s0
    "dev1/result.txt" "b" 2 [("DeviceID", Json.str "dev1")] rfl (Or.inl rfl)

/-- Every result of the inference-processing step carries transport status
200 and one of the two JSON body shapes. -/
theorem processInferences_shape (decode : Json → Option Json) (ioOk : Bool)
    (s : State) (path : String) (ms : Nat) (fields : List (String × Json))
    (inferences : Json) :
    (processInferences decode ioOk s path ms fields inferences).2.transport = 200 ∧
    ((∃ fp, (processInferences decode ioOk s path ms fields inferences).2.body
          = .success 200 fp ms) ∨
     (∃ e, (processInferences decode ioOk s path ms fields inferences).2.body
          = .failure 500 e ms)) := by
  unfold processInferences save_meta_file
  repeat' split
  all_goals
    first
      | exact ⟨rfl, Or.inl ⟨_, rfl⟩⟩
      | exact ⟨rfl, Or.inr ⟨_, rfl⟩⟩

/-- C5: for every request and every outcome of parsing, decoding and the
filesystem, both handlers return normally with a JSON body that is either
`{status: 200, file_path, process_time_ms}` or
`{status: 500, error, process_time_ms}`, and the HTTP transport status is
200 even when the operation fails internally. -/
theorem handlers_always_200_with_json_body (loads : String → Option Json)
    (decode : Json → Option Json) (ioOk : Bool) (s : State)
    (path content body : String) (ms : Nat) :
    ((update_image ioOk s path content ms).2.transport = 200 ∧
      ((∃ fp, (update_image ioOk s path content ms).2.body
            = .success 200 fp ms) ∨
       (∃ e, (update_image ioOk s path content ms).2.body
            = .failure 500 e ms))) ∧
    ((update_inference_result loads decode ioOk s path body ms).2.transport = 200 ∧
      ((∃ fp, (update_inference_result loads decode ioOk s path body ms).2.body
            = .success 200 fp ms) ∨
       (∃ e, (update_inference_result loads decode ioOk s path body ms).2.body
            = .failure 500 e ms))) := by
  constructor
  · cases ioOk
    · exact ⟨rfl, Or.inr ⟨"save error", rfl⟩⟩
    · exact ⟨rfl, Or.inl ⟨image_dest path, rfl⟩⟩
  · unfold update_inference_result
    cases hl : loads body with
    | none => exact ⟨rfl, Or.inr ⟨_, rfl⟩⟩
    | some j =>
        cases j with
        | obj fields => exact processInferences_shape decode ioOk s path ms fields _
        | null => exact ⟨rfl, Or.inr ⟨_, rfl⟩⟩
        | bool b => exact ⟨rfl, Or.inr ⟨_, rfl⟩⟩
        | num n => exact ⟨rfl, Or.inr ⟨_, rfl⟩⟩
        | str st => exact ⟨rfl, Or.inr ⟨_, rfl⟩⟩
        | arr xs => exact ⟨rfl, Or.inr ⟨_, rfl⟩⟩
